import Mathlib

/-!
Verification of the reranker inference pipeline in `src/inference/rank_model.py`
(`last_logit_pool`, `DatasetForReranker`, `collater`, `MatroyshkaReranker.compute_score`).

The tokenizer is external (HuggingFace transformers); it is modelled abstractly as a
function `tok : String → List Nat` producing token ids for a text without special tokens,
together with a `bos` token id and a `pad` token id.  The calls the repository makes into
the tokenizer (`truncation=True` encoding, `prepare_for_model` with `truncation='only_second'`,
and `pad` with `padding=True, pad_to_multiple_of=8`) are embedded following the transformers
semantics that those calls invoke.  The neural scoring backend (`self.model(...)`) is opaque
per the repository's own boundary and is modelled as an abstract function parameter.
-/

namespace RankModel

/-- Python-style list indexing: a negative index counts from the end, an index out of
range on either side is an error (`none`).  Torch tensor row indexing used in
`last_logit_pool` (`logits[i, sequence_lengths[i]]`) follows the same convention. -/
def pyGet {α : Type _} (xs : List α) (i : Int) : Option α :=
  if 0 ≤ i then xs[i.toNat]?
  else if 0 ≤ i + xs.length then xs[(i + xs.length).toNat]?
  else none

/-- Collapse a list of optional values: `some` of the list of values when every entry is
`some`, otherwise `none` (a failed element lookup fails the whole extraction). -/
def optList {α : Type _} : List (Option α) → Option (List α)
  | [] => some []
  | none :: _ => none
  | some a :: rest => (optList rest).map (fun l => a :: l)

/-- `last_logit_pool` (rank_model.py lines 20-28).  `logits` is a list of batch rows, each
row a list of per-position values; `attention_mask` is a list of batch rows of 0/1 entries.
`left_padding` tests whether the sum of the last column of the mask equals the number of
rows; if so, every row contributes its final position, otherwise row `i` contributes
position `(sum of mask row i) - 1` with Python index wrapping (`-1` is the last position). -/
def last_logit_pool {α : Type _} (logits : List (List α))
    (attention_mask : List (List Nat)) : Option (List α) :=
  let left_padding := (attention_mask.map (fun r => r.getLastD 0)).sum = attention_mask.length
  if left_padding then
    optList (logits.map (fun row => row.getLast?))
  else
    optList ((List.range logits.length).map (fun i =>
      pyGet (logits.getD i []) (((attention_mask.getD i []).sum : Int) - 1)))

/-- transformers tokenization with `truncation=True` and a `max_length` argument keeps the
first `max_length` tokens; a falsy `max_length` (0 / None) disables truncation
(`prepare_for_model` guards truncation with `... and max_length and total_len > max_length`). -/
def pyTruncate (maxLength : Nat) (ids : List Nat) : List Nat :=
  if maxLength = 0 then ids else ids.take maxLength

/-- Models the transformers call `tokenizer.prepare_for_model(ids, pair_ids,
truncation='only_second', max_length=m, padding=False, add_special_tokens=False)`:
when `max_length` is truthy and the combined length exceeds it, `truncate_sequences`
removes `total - max_length` tokens from the end of the second segment, but only when the
second segment is strictly longer than the amount to remove; otherwise it logs an error
and removes nothing.  The first segment is never shortened.  Returns the concatenation. -/
def prepare_for_model_only_second (ids pair_ids : List Nat) (maxLength : Int) : List Nat :=
  let totalLen : Int := (ids.length : Int) + pair_ids.length
  if maxLength ≠ 0 ∧ totalLen > maxLength then
    let numRemove : Int := totalLen - maxLength
    if (pair_ids.length : Int) > numRemove then
      ids ++ pair_ids.take ((pair_ids.length : Int) - numRemove).toNat
    else
      ids ++ pair_ids
  else
    ids ++ pair_ids

/-- The fixed instruction used when no prompt is supplied (rank_model.py lines 71-72 and 302). -/
def defaultPrompt : String := "Predict whether passage B contains an answer to query A."

/-- The separator text tokenized once per run (rank_model.py lines 76 and 306). -/
def sepText : String := "\n"

/-- One built example: token ids, all-ones attention mask, and the two integer markers
returned alongside it (query span length and suffix length). -/
structure BuiltItem where
  input_ids : List Nat
  attention_mask : List Nat
  query_length : Nat
  prompt_length : Nat
  deriving Repr, DecidableEq

/-- The per-pair sequence construction shared by `DatasetForReranker.__getitem__`
(lines 86-118) and the synchronous branch of `compute_score` (lines 330-348):
tokenize `'A: ' + query` truncated to 32 tokens and `'B: ' + passage` truncated to
`passageMax` tokens, run `prepare_for_model` on `[bos] + query_tokens` versus
`sep + passage_tokens` with budget `encodeMaxLength` truncating only the second segment,
then append `sep + prompt_tokens`.  The attention mask is all ones, and the markers are
`len([bos] + query_tokens + sep)` and `len(sep + prompt_tokens)`. -/
def buildPairItem (tok : String → List Nat) (bos : Nat) (sep_inputs prompt_inputs : List Nat)
    (encodeMaxLength : Int) (passageMax : Nat) (query passage : String) : BuiltItem :=
  let query_inputs := pyTruncate 32 (tok ("A: " ++ query))
  let passage_inputs := pyTruncate passageMax (tok ("B: " ++ passage))
  let base := prepare_for_model_only_second (bos :: query_inputs)
      (sep_inputs ++ passage_inputs) encodeMaxLength
  let ids := base ++ sep_inputs ++ prompt_inputs
  { input_ids := ids
    attention_mask := List.replicate ids.length 1
    query_length := (bos :: query_inputs ++ sep_inputs).length
    prompt_length := (sep_inputs ++ prompt_inputs).length }

/-- `DatasetForReranker.__getitem__` (lines 47-118): the prompt defaults to the fixed
instruction when `None`, and the encode budget is
`max_len - len(sep_inputs) - len(prompt_inputs)` (line 81). -/
def dataset_getitem (tok : String → List Nat) (bos : Nat) (max_len : Nat)
    (prompt : Option String) (query passage : String) : BuiltItem :=
  let prompt_inputs := tok (prompt.getD defaultPrompt)
  let sep_inputs := tok sepText
  let encode_max_length : Int :=
    (max_len : Int) - sep_inputs.length - prompt_inputs.length
  buildPairItem tok bos sep_inputs prompt_inputs encode_max_length max_len query passage

/-- The per-pair construction of the synchronous (`use_dataloader=False`) branch of
`compute_score` (lines 301-348): the prompt argument is unconditionally replaced by the
fixed instruction (line 302), and the encode budget is
`max_length + len(sep_inputs) + len(prompt_inputs)` (line 310). -/
def sync_build_item (tok : String → List Nat) (bos : Nat) (max_length : Nat)
    (query passage : String) : BuiltItem :=
  let prompt_inputs := tok defaultPrompt
  let sep_inputs := tok sepText
  let encode_max_length : Int :=
    (max_length : Int) + sep_inputs.length + prompt_inputs.length
  buildPairItem tok bos sep_inputs prompt_inputs encode_max_length max_length query passage

/-- Round `n` up to the next multiple of 8, as transformers `pad` does with
`pad_to_multiple_of=8`. -/
def roundMul8 (n : Nat) : Nat := if n % 8 = 0 then n else (n / 8 + 1) * 8

/-- A collated batch: dense `input_ids` and `attention_mask` matrices. -/
structure Collated where
  input_ids : List (List Nat)
  attention_mask : List (List Nat)
  deriving Repr, DecidableEq

/-- Models the call `tokenizer.pad(features, padding=True, max_length=self.max_len,
pad_to_multiple_of=8, return_tensors='pt')` in `collater.__call__` (lines 162-168) with the
tokenizer's padding side set to `'right'` (lines 61 and 191).  With `padding=True`
(longest) the `max_length` argument is ignored — the repository filters exactly this
transformers warning at lines 126-127 — so the target width is the longest `input_ids`
in the batch rounded up to a multiple of 8.  Token rows are padded on the right with the
pad token id and mask rows with 0. -/
def tokenizer_pad (max_len : Nat) (pad_token_id : Nat)
    (features : List (List Nat × List Nat)) : Collated :=
  let _ := max_len
  let target := roundMul8 ((features.map (fun f => f.1.length)).foldr max 0)
  { input_ids := features.map (fun f => f.1 ++ List.replicate (target - f.1.length) pad_token_id)
    attention_mask := features.map (fun f => f.2 ++ List.replicate (target - f.2.length) 0) }

/-- `collater.__call__` (lines 129-170) on inference inputs: the features carry only
`input_ids` and `attention_mask` (see the call at lines 351-357), so the `labels` branch
(lines 138-160) is skipped and the result is `tokenizer.pad` of the features together with
the untouched `query_lengths` and `prompt_lengths`. -/
def collater_call (max_len : Nat) (pad_token_id : Nat)
    (data : List (List Nat × List Nat) × List Nat × List Nat) :
    Collated × List Nat × List Nat :=
  (tokenizer_pad max_len pad_token_id data.1, data.2.1, data.2.2)

/-- The index comparison used to model `np.argsort`: index `i` comes before index `j`
when its key is smaller, ties broken by the smaller index. -/
def idxLe (ks : List Int) (i j : Nat) : Prop :=
  ks.getD i 0 < ks.getD j 0 ∨ (ks.getD i 0 = ks.getD j 0 ∧ i ≤ j)

instance idxLe.decRel (ks : List Int) : DecidableRel (idxLe ks) := fun i j => by
  unfold idxLe
  exact inferInstance

instance idxLe.isTotal (ks : List Int) : IsTotal Nat (idxLe ks) := by
  constructor
  intro a b
  unfold idxLe
  omega

instance idxLe.isTrans (ks : List Int) : IsTrans Nat (idxLe ks) := by
  constructor
  intro a b c hab hbc
  unfold idxLe at *
  omega

/-- `np.argsort`, modelled as sorting the index list `[0, ..., n-1]` by the key at each
index, ties broken by the smaller index.  (NumPy's default quicksort is unstable, so the
order of tying indices is unspecified there; no verified property depends on the tie
order, and the stable tie-break matches the specification's reading.) -/
def argsortKey (ks : List Int) : List Nat :=
  List.insertionSort (idxLe ks) (List.range ks.length)

/-- Slicing a list into consecutive batches of size `bs`, as
`for batch_start in trange(0, len(sentences_sorted), batch_size)` does (line 312). -/
def batched {α : Type _} (bs : Nat) : List α → List (List α)
  | [] => []
  | x :: xs =>
    if h : bs = 0 then []
    else (x :: xs).take bs :: batched bs ((x :: xs).drop bs)
  termination_by xs => xs.length
  decreasing_by
    have hbs : 0 < bs := Nat.pos_of_ne_zero h
    simp [List.length_drop]
    omega

/-- `_text_length` (lines 401-415) applied to a Python `str`: a string has `__len__`, its
first element is a one-character string rather than an `int`, so the function returns the
sum of the lengths of its characters, i.e. the length of the string. -/
def textLength (s : String) : Nat := s.length

/-- The length-sort keys of `compute_score` (line 257):
`[-self._text_length(q) - self._text_length(p) for q, p in sentence_pairs]`. -/
def lengthKeys (pairs : List (String × String)) : List Int :=
  pairs.map (fun qp => -(textLength qp.1 : Int) - (textLength qp.2 : Int))

/-- One batch of the synchronous branch (lines 313-357): build every item of the chunk,
record the query and prompt lengths, and collate with `collater(self.tokenizer, max_length)`
taking component `[0]` of its result. -/
def prepare_batch (tok : String → List Nat) (bos pad_token_id : Nat) (max_length : Nat)
    (chunk : List (String × String)) : Collated × List Nat × List Nat :=
  let items := chunk.map (fun qp => sync_build_item tok bos max_length qp.1 qp.2)
  let query_lengths := items.map (fun it => it.query_length)
  let prompt_lengths := items.map (fun it => it.prompt_length)
  let collated := (collater_call max_length pad_token_id
      (items.map (fun it => (it.input_ids, it.attention_mask)),
       query_lengths, prompt_lengths)).1
  (collated, query_lengths, prompt_lengths)

/-- The `use_dataloader=False`, `layer_wise=False` body of `compute_score` on a normalized
pair list (lines 257-258, 301-384, 389-390).  `run_batch` abstracts the opaque model
forward together with the score extraction of lines 361-384 (`last_logit_pool` plus the
`yes_loc` lookup and `tolist`), returning one score per batch row; it receives the collated
batch and the `query_lengths`/`prompt_lengths` markers exactly as the backend call does.
The final line applies `np.argsort(length_sorted_idx)` to restore caller order. -/
def compute_score_sync_core {β : Type _} [Inhabited β] (tok : String → List Nat)
    (bos pad_token_id : Nat) (run_batch : Collated → List Nat → List Nat → List β)
    (pairs : List (String × String)) (batch_size max_length : Nat) : List β :=
  let length_sorted_idx := argsortKey (lengthKeys pairs)
  let sentences_sorted := length_sorted_idx.map (fun idx => pairs.getD idx ("", ""))
  let all_scores := (batched batch_size sentences_sorted).flatMap (fun chunk =>
    let prepared := prepare_batch tok bos pad_token_id max_length chunk
    run_batch prepared.1 prepared.2.1 prepared.2.2)
  (argsortKey (length_sorted_idx.map Int.ofNat)).map (fun idx => all_scores.getD idx default)

/-- The argument `sentence_pairs` of `compute_score`: either a flat `[query, passage]`
list of two strings (normalized to a singleton list at lines 254-255) or a list of pairs. -/
inductive SentencePairs where
  | single (query passage : String)
  | many (pairs : List (String × String))

/-- `compute_score` with `use_dataloader=False` and `layer_wise=False` (lines 249-398).
A flat two-string input is wrapped into a singleton list; an empty list passes the
`isinstance` assertion and then raises `IndexError` at `sentence_pairs[0]` (line 254).
The `prompt` argument is unused: line 302 replaces it with the fixed instruction before it
is ever read.  The `normalize` argument is unused: the sigmoid application (lines 392-393)
is commented out in the source. -/
def compute_score_sync {β : Type _} [Inhabited β] (tok : String → List Nat)
    (bos pad_token_id : Nat) (run_batch : Collated → List Nat → List Nat → List β)
    (sentence_pairs : SentencePairs) (batch_size max_length : Nat)
    (prompt : Option String) (normalize : Bool) : Except String (List β) :=
  let _ := prompt
  let _ := normalize
  match sentence_pairs with
  | .single query passage =>
    .ok (compute_score_sync_core tok bos pad_token_id run_batch
      [(query, passage)] batch_size max_length)
  | .many [] => .error "IndexError: list index out of range"
  | .many (x :: rest) =>
    .ok (compute_score_sync_core tok bos pad_token_id run_batch
      (x :: rest) batch_size max_length)

/-- The layer-wise accumulator update (lines 368-377): on the first batch, `all_scores`
is seeded with one empty list per layer; then `all_scores[i].extend(scores[i])` for each
layer index `i` below `len(scores)`. -/
def extend_all_scores {β : Type _} (all_scores scores : List (List β)) : List (List β) :=
  let acc := if all_scores.length = 0 then scores.map (fun _ => []) else all_scores
  acc.zipWith (fun a s => a ++ s) scores ++ acc.drop scores.length

/-- The `use_dataloader=False`, `layer_wise=True` body of `compute_score` on a normalized
pair list (lines 257-258, 301-377, 386-388).  `run_batch` abstracts the model forward with
`cutoff_layers` together with the per-layer extraction loop (lines 368-372), returning one
score list per exit layer for the batch.  Lines 386-388 re-apply
`np.argsort(length_sorted_idx)` independently to every layer. -/
def compute_score_layerwise_core {β : Type _} [Inhabited β] (tok : String → List Nat)
    (bos pad_token_id : Nat) (run_batch : Collated → List Nat → List Nat → List (List β))
    (pairs : List (String × String)) (batch_size max_length : Nat) : List (List β) :=
  let length_sorted_idx := argsortKey (lengthKeys pairs)
  let sentences_sorted := length_sorted_idx.map (fun idx => pairs.getD idx ("", ""))
  let all_scores := (batched batch_size sentences_sorted).foldl (fun acc chunk =>
    let prepared := prepare_batch tok bos pad_token_id max_length chunk
    extend_all_scores acc (run_batch prepared.1 prepared.2.1 prepared.2.2)) []
  let inv := argsortKey (length_sorted_idx.map Int.ofNat)
  all_scores.map (fun layer => inv.map (fun idx => layer.getD idx default))

/-- `compute_score` with `use_dataloader=False` and `layer_wise=True`: entry handling as
in `compute_score_sync`; `prompt` and `normalize` are unused for the same reasons. -/
def compute_score_layerwise {β : Type _} [Inhabited β] (tok : String → List Nat)
    (bos pad_token_id : Nat) (run_batch : Collated → List Nat → List Nat → List (List β))
    (sentence_pairs : SentencePairs) (batch_size max_length : Nat)
    (prompt : Option String) (normalize : Bool) : Except String (List (List β)) :=
  let _ := prompt
  let _ := normalize
  match sentence_pairs with
  | .single query passage =>
    .ok (compute_score_layerwise_core tok bos pad_token_id run_batch
      [(query, passage)] batch_size max_length)
  | .many [] => .error "IndexError: list index out of range"
  | .many (x :: rest) =>
    .ok (compute_score_layerwise_core tok bos pad_token_id run_batch
      (x :: rest) batch_size max_length)

/-- A concrete character-level test tokenizer: one token per character, the token id being
the character code.  Used only to evaluate the embedding at concrete inputs. -/
def charTok (s : String) : List Nat := s.data.map (fun c => c.toNat)

/-- A 200-character passage used as a concrete long input. -/
def pass200 : String := ⟨List.replicate 200 'x'⟩

/-! ## Helper lemmas -/

theorem getD_lt_eq {α : Type _} {l : List α} {i : Nat} (h : i < l.length) (d : α) :
    l.getD i d = l[i] :=
  List.getD_eq_getElem l d h

theorem map_range_getD {α : Type _} (l : List α) (d : α) :
    (List.range l.length).map (fun i => l.getD i d) = l := by
  induction l with
  | nil => simp
  | cons a t ih =>
    rw [List.length_cons, List.range_succ_eq_map, List.map_cons, List.map_map]
    have hcomp : ((fun i => (a :: t).getD i d) ∘ Nat.succ) = (fun i => t.getD i d) := rfl
    rw [hcomp, ih]
    rfl

theorem map_range_getD_comp {α β : Type _} (l : List α) (d : α) (G : α → β) :
    (List.range l.length).map (fun i => G (l.getD i d)) = l.map G := by
  have : (List.range l.length).map (fun i => G (l.getD i d))
      = ((List.range l.length).map (fun i => l.getD i d)).map G := by
    rw [List.map_map]
    rfl
  rw [this, map_range_getD]

theorem optList_map_eq {γ α : Type _} (l : List γ) (F : γ → Option α) (G : γ → α)
    (h : ∀ x ∈ l, F x = some (G x)) : optList (l.map F) = some (l.map G) := by
  induction l with
  | nil => rfl
  | cons a t ih =>
    rw [List.map_cons, List.map_cons, h a (List.mem_cons_self a t)]
    show (optList (t.map F)).map _ = _
    rw [ih (fun x hx => h x (List.mem_cons_of_mem a hx))]
    rfl

theorem le_foldr_max {l : List Nat} {x : Nat} (hx : x ∈ l) : x ≤ l.foldr max 0 := by
  induction l with
  | nil => cases hx
  | cons a t ih =>
    rcases List.mem_cons.mp hx with rfl | hx'
    · exact le_max_left _ _
    · exact le_trans (ih hx') (le_max_right _ _)

theorem le_roundMul8 (n : Nat) : n ≤ roundMul8 n := by
  unfold roundMul8
  split <;> omega

/-! ## argsort lemmas -/

theorem argsortKey_perm (ks : List Int) : (argsortKey ks).Perm (List.range ks.length) :=
  List.perm_insertionSort _ _

theorem argsortKey_length (ks : List Int) : (argsortKey ks).length = ks.length := by
  have := (argsortKey_perm ks).length_eq
  simpa using this

theorem argsortKey_sorted (ks : List Int) : List.Sorted (idxLe ks) (argsortKey ks) :=
  List.sorted_insertionSort _ _

theorem argsortKey_mem_lt (ks : List Int) {i : Nat} (h : i ∈ argsortKey ks) :
    i < ks.length := by
  have := (argsortKey_perm ks).mem_iff.mp h
  simpa [List.mem_range] using this

/-- `np.argsort` of a permutation of `[0, ..., n-1]` is its inverse permutation:
composing the two index lookups is the identity.  This is the mechanism by which
`compute_score` restores caller order (lines 386-390). -/
theorem argsort_inv (p : List Nat) (hp : p.Perm (List.range p.length)) :
    ∀ i, i < p.length → p.getD ((argsortKey (p.map Int.ofNat)).getD i 0) 0 = i := by
  intro i hi
  set q := argsortKey (p.map Int.ofNat) with hqdef
  have hksl : (p.map Int.ofNat).length = p.length := by simp
  have hql : q.length = p.length := by rw [hqdef, argsortKey_length, hksl]
  have hqperm : q.Perm (List.range p.length) := by
    rw [hqdef]
    have := argsortKey_perm (p.map Int.ofNat)
    rwa [hksl] at this
  have hpnodup : p.Nodup := hp.nodup_iff.mpr (List.nodup_range _)
  have hqnodup : q.Nodup := hqperm.nodup_iff.mpr (List.nodup_range _)
  have hmemq : ∀ a ∈ q, a < p.length := by
    intro a ha
    have := hqperm.mem_iff.mp ha
    simpa [List.mem_range] using this
  have hkey : ∀ j, j < p.length → (p.map Int.ofNat).getD j 0 = (p.getD j 0 : Int) := by
    intro j hj
    have hj2 : j < (p.map Int.ofNat).length := by rw [hksl]; exact hj
    rw [getD_lt_eq hj2, List.getElem_map, getD_lt_eq hj]
    rfl
  have hsort : List.Sorted (idxLe (p.map Int.ofNat)) q := by
    rw [hqdef]
    exact argsortKey_sorted _
  have hpair : List.Pairwise (fun a b => p.getD a 0 < p.getD b 0) q := by
    have hne : List.Pairwise (fun a b : Nat => a ≠ b) q := hqnodup
    refine (List.Pairwise.and hsort hne).imp_of_mem ?_
    intro a b ha hb hab
    obtain ⟨hle, hneq⟩ := hab
    have ha' := hmemq a ha
    have hb' := hmemq b hb
    rcases hle with hlt | ⟨heq, _⟩
    · rw [hkey a ha', hkey b hb'] at hlt
      exact_mod_cast hlt
    · exfalso
      rw [hkey a ha', hkey b hb'] at heq
      have heq' : p.getD a 0 = p.getD b 0 := by exact_mod_cast heq
      rw [getD_lt_eq ha', getD_lt_eq hb'] at heq'
      exact hneq ((hpnodup.getElem_inj_iff).mp heq')
  have hL : q.map (fun j => p.getD j 0) = List.range p.length := by
    have hperm : (q.map (fun j => p.getD j 0)).Perm (List.range p.length) := by
      have h1 := hqperm.map (fun j => p.getD j 0)
      rw [map_range_getD p 0] at h1
      exact h1.trans hp
    have hs1 : List.Sorted (fun a b : Nat => a < b) (q.map (fun j => p.getD j 0)) :=
      (List.pairwise_map).mpr hpair
    exact List.eq_of_perm_of_sorted hperm hs1 (List.pairwise_lt_range _)
  have hiq : i < q.length := by rw [hql]; exact hi
  have hfin : (q.map (fun j => p.getD j 0))[i]? = some i := by
    rw [hL]
    exact List.getElem?_range hi
  rw [List.getElem?_map, List.getElem?_eq_getElem hiq] at hfin
  rw [getD_lt_eq hiq]
  exact Option.some.inj hfin

/-- Sorting a list by arbitrary integer keys, mapping a function over the sorted list, and
reading the results back through `np.argsort` of the sort permutation yields exactly the
map over the original list: the inverse permutation restores caller order. -/
theorem unsort_restore {γ β : Type _} [Inhabited β] (xs : List γ) (dg : γ) (ks : List Int)
    (hk : ks.length = xs.length) (f : γ → β) :
    (argsortKey ((argsortKey ks).map Int.ofNat)).map
      (fun idx => (((argsortKey ks).map (fun j => xs.getD j dg)).map f).getD idx default)
    = xs.map f := by
  set p := argsortKey ks with hpdef
  have hpl : p.length = xs.length := by rw [hpdef, argsortKey_length, hk]
  have hpperm : p.Perm (List.range p.length) := by
    have h1 : p.length = ks.length := by rw [hpdef, argsortKey_length]
    rw [h1, hpdef]
    exact argsortKey_perm ks
  set q := argsortKey (p.map Int.ofNat) with hqdef
  have hql : q.length = xs.length := by
    rw [hqdef, argsortKey_length, List.length_map, hpl]
  have hinv := argsort_inv p hpperm
  have hmemq : ∀ a ∈ q, a < xs.length := by
    intro a ha
    have h1 : a ∈ List.range p.length := by
      have := argsortKey_mem_lt (p.map Int.ofNat) ha
      rw [List.length_map] at this
      rw [List.mem_range]
      exact this
    rw [List.mem_range] at h1
    rw [← hpl]
    exact h1
  apply List.ext_getElem
  · simp [hql]
  · intro i h1 h2
    have hi : i < xs.length := by simpa using h2
    have hiq : i < q.length := by rw [hql]; exact hi
    rw [List.getElem_map, List.getElem_map]
    have hqi : q[i] < xs.length := hmemq q[i] (List.getElem_mem hiq)
    have hscl : ((p.map (fun j => xs.getD j dg)).map f).length = xs.length := by
      simp [hpl]
    have hqi2 : q[i] < ((p.map (fun j => xs.getD j dg)).map f).length := by
      rw [hscl]
      exact hqi
    rw [getD_lt_eq hqi2]
    have hqi3 : q[i] < (p.map (fun j => xs.getD j dg)).length := by
      rw [List.length_map, hpl]
      exact hqi
    have hqi4 : q[i] < p.length := by rw [hpl]; exact hqi
    rw [List.getElem_map, List.getElem_map]
    have hpq : p.getD (q.getD i 0) 0 = i := hinv i (by rw [hpl]; exact hi)
    rw [getD_lt_eq hiq, getD_lt_eq hqi4] at hpq
    rw [hpq]
    rw [getD_lt_eq hi]

/-- Concatenating the consecutive batches of size `bs` restores the list. -/
theorem batched_flatten {α : Type _} (bs : Nat) (hbs : bs ≠ 0) (xs : List α) :
    (batched bs xs).flatten = xs := by
  have H : ∀ n (xs : List α), xs.length ≤ n → (batched bs xs).flatten = xs := by
    intro n
    induction n with
    | zero =>
      intro xs h
      cases xs with
      | nil => simp [batched]
      | cons a t => simp at h
    | succ n ih =>
      intro xs h
      cases xs with
      | nil => simp [batched]
      | cons a t =>
        rw [batched, dif_neg hbs, List.flatten_cons]
        rw [ih ((a :: t).drop bs) ?_]
        · exact List.take_append_drop bs (a :: t)
        · have hlen : ((a :: t).drop bs).length = (a :: t).length - bs := List.length_drop _ _
          have : (a :: t).length = t.length + 1 := List.length_cons a t
          simp only [List.length_cons] at h
          omega
  exact H xs.length xs le_rfl

/-- Mapping a per-element function over every batch and concatenating equals the map over
the whole list. -/
theorem batched_flatMap_map {α β : Type _} (bs : Nat) (hbs : bs ≠ 0) (xs : List α)
    (g : α → β) : (batched bs xs).flatMap (fun c => c.map g) = xs.map g := by
  rw [List.flatMap_def, ← List.map_flatten, batched_flatten bs hbs]

/-- A nonempty list yields a nonempty batch list. -/
theorem batched_ne_nil {α : Type _} (bs : Nat) (hbs : bs ≠ 0) (xs : List α)
    (hxs : xs ≠ []) : batched bs xs ≠ [] := by
  cases xs with
  | nil => exact absurd rfl hxs
  | cons a t =>
    rw [batched, dif_neg hbs]
    exact List.cons_ne_nil _ _

/-- Extending the empty accumulator seeds it with the batch scores. -/
theorem extend_all_scores_nil {β : Type _} (s : List (List β)) :
    extend_all_scores [] s = s := by
  show (s.map (fun _ => ([] : List β))).zipWith (fun a b => a ++ b) s
      ++ (s.map (fun _ => ([] : List β))).drop s.length = s
  have hd : (s.map (fun _ => ([] : List β))).drop s.length = [] := by
    have h0 := List.drop_length (s.map (fun _ => ([] : List β)))
    rwa [List.length_map] at h0
  rw [hd, List.append_nil, List.zipWith_map_left, List.zipWith_same]
  simp

/-- Extending an accumulator of `k` per-layer lists with `k` per-layer batch scores
appends layerwise. -/
theorem extend_all_scores_ranges {β : Type _} (k : Nat) (A S : Nat → List β) :
    extend_all_scores ((List.range k).map A) ((List.range k).map S)
      = (List.range k).map (fun l => A l ++ S l) := by
  cases k with
  | zero => simp [extend_all_scores]
  | succ k2 =>
    have hc : ¬ (((List.range (k2 + 1)).map A).length = 0) := by simp
    unfold extend_all_scores
    rw [if_neg hc]
    show ((List.range (k2 + 1)).map A).zipWith (fun a b => a ++ b) ((List.range (k2 + 1)).map S)
        ++ ((List.range (k2 + 1)).map A).drop ((List.range (k2 + 1)).map S).length
      = (List.range (k2 + 1)).map (fun l => A l ++ S l)
    have hd : ((List.range (k2 + 1)).map A).drop ((List.range (k2 + 1)).map S).length = [] := by
      have h0 := List.drop_length ((List.range (k2 + 1)).map A)
      rw [List.length_map] at h0
      rw [List.length_map]
      exact h0
    rw [hd, List.append_nil, List.zipWith_map, List.zipWith_same]

/-- Folding `extend_all_scores` over per-chunk layer scores, starting from an accumulator
holding the layerwise scores of a prefix, accumulates layerwise over the concatenation. -/
theorem foldl_extend_inv {β γ : Type _} (k : Nat) (G : Nat → γ → β)
    (S : List γ → List (List β)) (cs : List (List γ))
    (hS : ∀ c ∈ cs, S c = (List.range k).map (fun l => c.map (G l))) :
    ∀ pref : List γ,
      cs.foldl (fun acc c => extend_all_scores acc (S c))
          ((List.range k).map (fun l => pref.map (G l)))
        = (List.range k).map (fun l => (pref ++ cs.flatten).map (G l)) := by
  induction cs with
  | nil => intro pref; simp
  | cons c rest ih =>
    intro pref
    rw [List.foldl_cons, hS c (List.mem_cons_self c rest), extend_all_scores_ranges]
    have hsame : (List.range k).map (fun l => pref.map (G l) ++ c.map (G l))
        = (List.range k).map (fun l => (pref ++ c).map (G l)) := by
      apply List.map_congr_left
      intro l _
      rw [List.map_append]
    rw [hsame, ih (fun c2 hc2 => hS c2 (List.mem_cons_of_mem c hc2)) (pref ++ c)]
    rw [List.flatten_cons, List.append_assoc]

/-- Folding `extend_all_scores` from the empty accumulator over a nonempty chunk list
yields the `k` layerwise score lists of the concatenation. -/
theorem foldl_extend_from_nil {β γ : Type _} (k : Nat) (G : Nat → γ → β)
    (S : List γ → List (List β)) (cs : List (List γ)) (hcs : cs ≠ [])
    (hS : ∀ c ∈ cs, S c = (List.range k).map (fun l => c.map (G l))) :
    cs.foldl (fun acc c => extend_all_scores acc (S c)) []
      = (List.range k).map (fun l => cs.flatten.map (G l)) := by
  cases cs with
  | nil => exact absurd rfl hcs
  | cons c rest =>
    rw [List.foldl_cons, hS c (List.mem_cons_self c rest), extend_all_scores_nil]
    rw [foldl_extend_inv k G S rest (fun c2 hc2 => hS c2 (List.mem_cons_of_mem c hc2)) c]
    rw [List.flatten_cons]

/-- When the abstract backend call assigns a score to every row of a prepared batch as a
function of the underlying pair, the whole synchronous pipeline computes the per-pair map
in the caller's order: sorting, batching and the final inverse permutation cancel. -/
theorem compute_score_sync_core_eq {β : Type _} [Inhabited β] (tok : String → List Nat)
    (bos pad_token_id : Nat) (run_batch : Collated → List Nat → List Nat → List β)
    (f : String × String → β) (pairs : List (String × String)) (batch_size max_length : Nat)
    (hbs : batch_size ≠ 0)
    (hfact : ∀ chunk : List (String × String),
      run_batch (prepare_batch tok bos pad_token_id max_length chunk).1
        (prepare_batch tok bos pad_token_id max_length chunk).2.1
        (prepare_batch tok bos pad_token_id max_length chunk).2.2 = chunk.map f) :
    compute_score_sync_core tok bos pad_token_id run_batch pairs batch_size max_length
      = pairs.map f := by
  simp only [compute_score_sync_core]
  have hF : (fun chunk => run_batch (prepare_batch tok bos pad_token_id max_length chunk).1
        (prepare_batch tok bos pad_token_id max_length chunk).2.1
        (prepare_batch tok bos pad_token_id max_length chunk).2.2)
      = (fun chunk : List (String × String) => chunk.map f) := funext hfact
  rw [hF, batched_flatMap_map _ hbs]
  exact unsort_restore pairs ("", "") (lengthKeys pairs) (by simp [lengthKeys]) f

/-- When the abstract backend call returns, for a prepared batch, one score list per exit
layer whose rows are a per-layer function of the underlying pair, the layer-wise pipeline
computes the list of per-layer maps in the caller's order. -/
theorem compute_score_layerwise_core_eq {β : Type _} [Inhabited β] (tok : String → List Nat)
    (bos pad_token_id : Nat) (run_batch : Collated → List Nat → List Nat → List (List β))
    (k : Nat) (g : Nat → String × String → β) (pairs : List (String × String))
    (batch_size max_length : Nat) (hbs : batch_size ≠ 0) (hne : pairs ≠ [])
    (hfact : ∀ chunk : List (String × String),
      run_batch (prepare_batch tok bos pad_token_id max_length chunk).1
        (prepare_batch tok bos pad_token_id max_length chunk).2.1
        (prepare_batch tok bos pad_token_id max_length chunk).2.2
      = (List.range k).map (fun l => chunk.map (g l))) :
    compute_score_layerwise_core tok bos pad_token_id run_batch pairs batch_size max_length
      = (List.range k).map (fun l => pairs.map (g l)) := by
  simp only [compute_score_layerwise_core]
  have hsortedne : (argsortKey (lengthKeys pairs)).map (fun idx => pairs.getD idx ("", "")) ≠ [] := by
    intro hcon
    have h0 : ((argsortKey (lengthKeys pairs)).map (fun idx => pairs.getD idx ("", ""))).length
        = pairs.length := by
      rw [List.length_map, argsortKey_length]
      simp [lengthKeys]
    rw [hcon] at h0
    exact hne (List.length_eq_zero.mp h0.symm)
  have hcs := batched_ne_nil batch_size hbs _ hsortedne
  rw [foldl_extend_from_nil k g
    (fun chunk => run_batch (prepare_batch tok bos pad_token_id max_length chunk).1
      (prepare_batch tok bos pad_token_id max_length chunk).2.1
      (prepare_batch tok bos pad_token_id max_length chunk).2.2)
    _ hcs (fun c _ => hfact c)]
  rw [batched_flatten _ hbs, List.map_map]
  apply List.map_congr_left
  intro l _
  exact unsort_restore pairs ("", "") (lengthKeys pairs) (by simp [lengthKeys]) (g l)

/-- Claim C3: for every logits tensor and attention mask of matching batch shape, the
score extractor selects, for each row, the logits at the final sequence position when the
last column of the attention mask sums to the batch size, and otherwise selects, for each
row independently, the logits at position (sum of that row's attention mask) - 1. -/
theorem last_logit_pool_position_rule {α : Type _} (d : α) (logits : List (List α))
    (mask : List (List Nat))
    (_hlen : mask.length = logits.length)
    (hrows : ∀ r ∈ logits, r ≠ [])
    (hsum : ∀ i, i < logits.length →
      1 ≤ (mask.getD i []).sum ∧ (mask.getD i []).sum ≤ (logits.getD i []).length) :
    last_logit_pool logits mask = some ((List.range logits.length).map (fun i =>
      if (mask.map (fun r => r.getLastD 0)).sum = mask.length
      then (logits.getD i []).getLastD d
      else (logits.getD i []).getD ((mask.getD i []).sum - 1) d)) := by
  simp only [last_logit_pool]
  by_cases hc : (mask.map (fun r => r.getLastD 0)).sum = mask.length
  · rw [if_pos hc]
    have hR : ((List.range logits.length).map (fun i =>
        if (mask.map (fun r => r.getLastD 0)).sum = mask.length
        then (logits.getD i []).getLastD d
        else (logits.getD i []).getD ((mask.getD i []).sum - 1) d))
        = (List.range logits.length).map (fun i => (logits.getD i []).getLastD d) := by
      apply List.map_congr_left
      intro i _
      rw [if_pos hc]
    rw [hR, map_range_getD_comp logits [] (fun r => r.getLastD d)]
    apply optList_map_eq
    intro r hr
    have hne := hrows r hr
    rw [List.getLast?_eq_getLast r hne]
    simp [List.getLastD_eq_getLast?, List.getLast?_eq_getLast r hne]
  · rw [if_neg hc]
    have hR : ((List.range logits.length).map (fun i =>
        if (mask.map (fun r => r.getLastD 0)).sum = mask.length
        then (logits.getD i []).getLastD d
        else (logits.getD i []).getD ((mask.getD i []).sum - 1) d))
        = (List.range logits.length).map (fun i =>
          (logits.getD i []).getD ((mask.getD i []).sum - 1) d) := by
      apply List.map_congr_left
      intro i _
      rw [if_neg hc]
    rw [hR]
    apply optList_map_eq
    intro i hi0
    rw [List.mem_range] at hi0
    obtain ⟨h1, h2⟩ := hsum i hi0
    have hidx : (mask.getD i []).sum - 1 < (logits.getD i []).length := by omega
    unfold pyGet
    rw [if_pos (by omega : (0 : Int) ≤ ((mask.getD i []).sum : Int) - 1)]
    have ht : (((mask.getD i []).sum : Int) - 1).toNat = (mask.getD i []).sum - 1 := by omega
    rw [ht, List.getElem?_eq_getElem hidx, getD_lt_eq hidx]

/-- Claim C10: in the right-padded branch of the score extractor, the selected position is
within sequence bounds for every row, including an all-zero attention row, which yields
Python index -1 and therefore selects the final sequence position rather than failing. -/
theorem last_logit_pool_right_branch_safe {α : Type _} (d : α) (logits : List (List α))
    (mask : List (List Nat))
    (hright : (mask.map (fun r => r.getLastD 0)).sum ≠ mask.length)
    (hrows : ∀ r ∈ logits, r ≠ [])
    (hsum : ∀ i, i < logits.length → (mask.getD i []).sum ≤ (logits.getD i []).length) :
    ∃ out, last_logit_pool logits mask = some out ∧ out.length = logits.length ∧
      ∀ i, i < logits.length → (mask.getD i []).sum = 0 →
        out[i]? = (logits.getD i []).getLast? := by
  refine ⟨(List.range logits.length).map (fun i =>
    if (mask.getD i []).sum = 0 then (logits.getD i []).getLastD d
    else (logits.getD i []).getD ((mask.getD i []).sum - 1) d), ?_, ?_, ?_⟩
  · simp only [last_logit_pool]
    rw [if_neg hright]
    apply optList_map_eq
    intro i hi0
    rw [List.mem_range] at hi0
    have hmem : logits.getD i [] ∈ logits := by
      rw [getD_lt_eq hi0]
      exact List.getElem_mem hi0
    have hne := hrows _ hmem
    have hlen1 : 1 ≤ (logits.getD i []).length := List.length_pos.mpr hne
    by_cases hz : (mask.getD i []).sum = 0
    · rw [if_pos hz, hz]
      unfold pyGet
      rw [if_neg (by omega : ¬ ((0 : Int) ≤ ((0 : Nat) : Int) - 1))]
      rw [if_pos (by omega : (0 : Int) ≤ ((0 : Nat) : Int) - 1 + (logits.getD i []).length)]
      have ht : (((0 : Nat) : Int) - 1 + (logits.getD i []).length).toNat
          = (logits.getD i []).length - 1 := by omega
      rw [ht, ← List.getLast?_eq_getElem?, List.getLastD_eq_getLast?,
        List.getLast?_eq_getLast _ hne, Option.getD_some]
    · have h1 : 1 ≤ (mask.getD i []).sum := Nat.pos_of_ne_zero hz
      have h2 := hsum i hi0
      have hidx : (mask.getD i []).sum - 1 < (logits.getD i []).length := by omega
      rw [if_neg hz]
      unfold pyGet
      rw [if_pos (by omega : (0 : Int) ≤ ((mask.getD i []).sum : Int) - 1)]
      have ht : (((mask.getD i []).sum : Int) - 1).toNat = (mask.getD i []).sum - 1 := by omega
      rw [ht, List.getElem?_eq_getElem hidx, getD_lt_eq hidx]
  · simp
  · intro i hi hz
    have hmem : logits.getD i [] ∈ logits := by
      rw [getD_lt_eq hi]
      exact List.getElem_mem hi
    have hne := hrows _ hmem
    rw [List.getElem?_map, List.getElem?_range hi]
    simp only [Option.map_some']
    rw [if_pos hz, List.getLastD_eq_getLast?, List.getLast?_eq_getLast _ hne,
      Option.getD_some]

/-- Claim C3 witness: a concrete right-padded batch; row 0 has mask sum 2 and row 1 has
mask sum 1, so positions 1 and 0 are selected. -/
theorem last_logit_pool_position_rule_witness :
    last_logit_pool [[10, 20, 30], [40, 50, 60]] [[1, 1, 0], [1, 0, 0]] = some [20, 40] :=
  (last_logit_pool_position_rule 0 [[10, 20, 30], [40, 50, 60]] [[1, 1, 0], [1, 0, 0]]
    (by decide) (by decide) (by decide)).trans (by decide)

/-- Claim C10 witness: a concrete right-padded batch whose first row has an all-zero
attention mask; the extraction succeeds and that row selects the final position. -/
theorem last_logit_pool_right_branch_safe_witness :
    ∃ out, last_logit_pool [[10, 20, 30], [40, 50, 60]] [[0, 0, 0], [1, 1, 0]] = some out ∧
      out.length = ([[10, 20, 30], [40, 50, 60]] : List (List Nat)).length ∧
      ∀ i, i < ([[10, 20, 30], [40, 50, 60]] : List (List Nat)).length →
        (([[0, 0, 0], [1, 1, 0]] : List (List Nat)).getD i []).sum = 0 →
        out[i]? = (([[10, 20, 30], [40, 50, 60]] : List (List Nat)).getD i []).getLast? :=
  last_logit_pool_right_branch_safe 0 [[10, 20, 30], [40, 50, 60]] [[0, 0, 0], [1, 1, 0]]
    (by decide) (by decide) (by decide)

/-- Claim C1 (code bug): the synchronous path computes
`encode_max_length = max_length + len(sep) + len(prompt)` (line 310, a `+` where
`DatasetForReranker` line 81 has `-`), so with `max_length = 100` and a 200-character
passage the built sequence has more than 100 tokens, while the dataloader path's
builder respects the bound on the same input. -/
theorem sync_budget_violation :
    100 < (sync_build_item charTok 1 100 "q" pass200).input_ids.length ∧
    (dataset_getitem charTok 1 100 none "q" pass200).input_ids.length ≤ 100 := by
  decide

/-- Claim C2 (code bug): the two batching paths build different token sequences for the
same input — the synchronous path truncates against `max_length + len(sep) + len(prompt)`
instead of `max_length - len(sep) - len(prompt)`, and it ignores a caller-supplied
prompt — so they are not functionally equivalent. -/
theorem dataloader_sync_paths_diverge :
    (dataset_getitem charTok 1 100 none "q" pass200).input_ids
        ≠ (sync_build_item charTok 1 100 "q" pass200).input_ids ∧
    (dataset_getitem charTok 1 512 (some "Hi") "q" "p").input_ids
        ≠ (sync_build_item charTok 1 512 "q" "p").input_ids := by
  decide

/-- Claim C4: for every input list of pairs, applying the inverse permutation to the
concatenated per-batch scores restores original caller order: whenever the abstract
backend scores every row of a prepared batch as a function `f` of the underlying pair,
`compute_score` returns exactly `pairs.map f`. -/
theorem compute_score_restores_input_order {β : Type _} [Inhabited β]
    (tok : String → List Nat) (bos pad_token_id : Nat)
    (run_batch : Collated → List Nat → List Nat → List β) (f : String × String → β)
    (pairs : List (String × String)) (batch_size max_length : Nat)
    (prompt : Option String) (normalize : Bool)
    (hne : pairs ≠ []) (hbs : batch_size ≠ 0)
    (hfact : ∀ chunk : List (String × String),
      run_batch (prepare_batch tok bos pad_token_id max_length chunk).1
        (prepare_batch tok bos pad_token_id max_length chunk).2.1
        (prepare_batch tok bos pad_token_id max_length chunk).2.2 = chunk.map f) :
    compute_score_sync tok bos pad_token_id run_batch (.many pairs) batch_size max_length
        prompt normalize
      = .ok (pairs.map f) := by
  cases pairs with
  | nil => exact absurd rfl hne
  | cons x rest =>
    show Except.ok (compute_score_sync_core tok bos pad_token_id run_batch
        (x :: rest) batch_size max_length) = _
    rw [compute_score_sync_core_eq tok bos pad_token_id run_batch f (x :: rest)
      batch_size max_length hbs hfact]

/-- Claim C4 witness: three concrete pairs with a constant-scoring backend; the output is
in caller order with one score per pair. -/
theorem compute_score_restores_input_order_witness :
    compute_score_sync charTok 1 0 (fun c _ _ => c.input_ids.map (fun _ => (0 : Nat)))
        (.many [("a", "bb"), ("cccc", "ddd"), ("e", "f")]) 2 16 none false
      = .ok [0, 0, 0] :=
  compute_score_restores_input_order charTok 1 0
    (fun c _ _ => c.input_ids.map (fun _ => (0 : Nat))) (fun _ => (0 : Nat))
    [("a", "bb"), ("cccc", "ddd"), ("e", "f")] 2 16 none false
    (List.cons_ne_nil _ _) (by decide)
    (by
      intro chunk
      simp [prepare_batch, collater_call, tokenizer_pad, List.map_map, Function.comp_def])

/-- Claim C5 counterexample: a batch holding one example of length 9 under
`max_length = 8` is padded to width 16, not to the smallest multiple of 8 that is at
least `min(max_length, max example length) = 8` — longest-padding ignores `max_length`. -/
theorem collater_cap_counterexample :
    ¬ (∀ row ∈ (collater_call 8 0 ([(List.replicate 9 5, List.replicate 9 1)],
          [], [])).1.input_ids,
        row.length = roundMul8 (min 8 9)) := by
  decide

/-- Claim C5 (amended): every row of the collated `input_ids` has the same length, namely
the maximum example length in the batch rounded up to the next multiple of 8; the
`max_length` cap is not applied. -/
theorem collater_row_length (max_len pad_token_id : Nat)
    (features : List (List Nat × List Nat)) (ql pl : List Nat) :
    ∀ row ∈ (collater_call max_len pad_token_id (features, ql, pl)).1.input_ids,
      row.length = roundMul8 ((features.map (fun f => f.1.length)).foldr max 0) := by
  intro row hrow
  have hrow2 : row ∈ features.map (fun f => f.1 ++ List.replicate
      (roundMul8 ((features.map (fun f => f.1.length)).foldr max 0) - f.1.length)
      pad_token_id) := hrow
  obtain ⟨f0, hf0, rfl⟩ := List.mem_map.mp hrow2
  have hle : f0.1.length ≤ (features.map (fun f => f.1.length)).foldr max 0 :=
    le_foldr_max (List.mem_map.mpr ⟨f0, hf0, rfl⟩)
  have hle2 := le_roundMul8 ((features.map (fun f => f.1.length)).foldr max 0)
  rw [List.length_append, List.length_replicate]
  omega

/-- Claim C5 witness: one example of length 3 is padded to the next multiple of 8. -/
theorem collater_row_length_witness :
    ([1, 2, 3, 0, 0, 0, 0, 0] : List Nat).length = roundMul8 3 :=
  collater_row_length 512 0 [([1, 2, 3], [1, 1, 1])] [] [] [1, 2, 3, 0, 0, 0, 0, 0]
    (by decide)

/-- Claim C6: in layer-wise mode, whenever the abstract backend returns `k` per-layer
score lists per batch (one entry per row, given by a per-layer function `g` of the pair),
`compute_score` returns a list of `k` lists, each of length equal to the number of input
pairs, each inner list in original input order. -/
theorem compute_score_layerwise_shape {β : Type _} [Inhabited β]
    (tok : String → List Nat) (bos pad_token_id : Nat)
    (run_batch : Collated → List Nat → List Nat → List (List β)) (k : Nat)
    (g : Nat → String × String → β) (pairs : List (String × String))
    (batch_size max_length : Nat) (prompt : Option String) (normalize : Bool)
    (hne : pairs ≠ []) (hbs : batch_size ≠ 0)
    (hfact : ∀ chunk : List (String × String),
      run_batch (prepare_batch tok bos pad_token_id max_length chunk).1
        (prepare_batch tok bos pad_token_id max_length chunk).2.1
        (prepare_batch tok bos pad_token_id max_length chunk).2.2
      = (List.range k).map (fun l => chunk.map (g l))) :
    compute_score_layerwise tok bos pad_token_id run_batch (.many pairs) batch_size
        max_length prompt normalize
      = .ok ((List.range k).map (fun l => pairs.map (g l))) ∧
    ((List.range k).map (fun l => pairs.map (g l))).length = k ∧
    ∀ layer ∈ (List.range k).map (fun l => pairs.map (g l)),
      layer.length = pairs.length := by
  refine ⟨?_, by simp, ?_⟩
  · cases pairs with
    | nil => exact absurd rfl hne
    | cons x rest =>
      show Except.ok (compute_score_layerwise_core tok bos pad_token_id run_batch
          (x :: rest) batch_size max_length) = _
      rw [compute_score_layerwise_core_eq tok bos pad_token_id run_batch k g (x :: rest)
        batch_size max_length hbs hne hfact]
  · intro layer hl
    obtain ⟨l, _, rfl⟩ := List.mem_map.mp hl
    exact List.length_map _ _

/-- Claim C6 witness: two exit layers over three concrete pairs; the result is two lists
of three scores each, in caller order. -/
theorem compute_score_layerwise_shape_witness :
    compute_score_layerwise charTok 1 0
        (fun c _ _ => (List.range 2).map (fun l => c.input_ids.map (fun _ => l)))
        (.many [("a", "bb"), ("cccc", "ddd"), ("e", "f")]) 2 16 none false
      = .ok [[0, 0, 0], [1, 1, 1]] ∧
    ([[0, 0, 0], [1, 1, 1]] : List (List Nat)).length = 2 ∧
    ∀ layer ∈ ([[0, 0, 0], [1, 1, 1]] : List (List Nat)), layer.length = 3 := by
  have h := compute_score_layerwise_shape charTok 1 0
    (fun c _ _ => (List.range 2).map (fun l => c.input_ids.map (fun _ => l))) 2
    (fun l _ => l) [("a", "bb"), ("cccc", "ddd"), ("e", "f")] 2 16 none false
    (List.cons_ne_nil _ _) (by decide)
    (by
      intro chunk
      apply List.map_congr_left
      intro l _
      simp [prepare_batch, collater_call, tokenizer_pad, List.map_map, Function.comp_def])
  exact ⟨h.1, by decide, by decide⟩

/-- Claim C7: the `normalize` flag has no effect on the returned scores — the sigmoid
application is commented out in the source (lines 392-393) — in both the standard and the
layer-wise configuration of the synchronous path. -/
theorem normalize_no_effect {β : Type _} [Inhabited β] (tok : String → List Nat)
    (bos pad_token_id : Nat) (run_batch : Collated → List Nat → List Nat → List β)
    (run_batch_lw : Collated → List Nat → List Nat → List (List β))
    (sentence_pairs : SentencePairs) (batch_size max_length : Nat)
    (prompt : Option String) :
    compute_score_sync tok bos pad_token_id run_batch sentence_pairs batch_size
        max_length prompt true
      = compute_score_sync tok bos pad_token_id run_batch sentence_pairs batch_size
        max_length prompt false ∧
    compute_score_layerwise tok bos pad_token_id run_batch_lw sentence_pairs batch_size
        max_length prompt true
      = compute_score_layerwise tok bos pad_token_id run_batch_lw sentence_pairs
        batch_size max_length prompt false :=
  ⟨rfl, rfl⟩

/-- Claim C8: with `use_dataloader=False`, the returned scores are independent of the
`prompt` argument — line 302 unconditionally replaces it with the fixed instruction. -/
theorem prompt_no_effect {β : Type _} [Inhabited β] (tok : String → List Nat)
    (bos pad_token_id : Nat) (run_batch : Collated → List Nat → List Nat → List β)
    (sentence_pairs : SentencePairs) (batch_size max_length : Nat)
    (prompt1 prompt2 : Option String) (normalize : Bool) :
    compute_score_sync tok bos pad_token_id run_batch sentence_pairs batch_size
        max_length prompt1 normalize
      = compute_score_sync tok bos pad_token_id run_batch sentence_pairs batch_size
        max_length prompt2 normalize :=
  rfl

/-- Claim C9: for the empty input list, `compute_score` raises an error — the element
lookup `sentence_pairs[0]` during single-pair normalization fails — rather than
returning an empty score list. -/
theorem empty_input_error {β : Type _} [Inhabited β] (tok : String → List Nat)
    (bos pad_token_id : Nat) (run_batch : Collated → List Nat → List Nat → List β)
    (batch_size max_length : Nat) (prompt : Option String) (normalize : Bool) :
    compute_score_sync tok bos pad_token_id run_batch (.many []) batch_size max_length
        prompt normalize
      = .error "IndexError: list index out of range" :=
  rfl

end RankModel
